import Mathlib

/-!
Shallow embedding of the artifact acquisition and local catalog manager of
the VingAI mobile client (`src/VingAIMobile/utils/fileSystem.ts` and
`src/VingAIMobile_1/App.tsx`).

The filesystem is a finite map from paths to byte sizes (`FS`).  The
react-native-fs primitives used by the source (`exists`, `unlink`, `stat`,
`downloadFile`) act on this map; the behaviour of the remote transport during
`RNFS.downloadFile` (progress events, settlement outcome, bytes left in the
destination file) is passed in as a `NetBehavior` value, since the transport
is a third-party collaborator.  `uuidv4()` and `new Date()` are modelled as
explicit `Nat` parameters (fresh identifier, timestamp).  JavaScript float
division in the progress handler is modelled over `ℚ`; the transport's
`contentLength` is assumed positive in the theorems that speak about
progress values (JS would produce NaN for a zero length).
-/

namespace VingAI

/-- A filesystem: association list from absolute path to file size in bytes.
Paths are unique keys; `fsSet` maintains this. -/
abbrev FS := List (String × Nat)

/-- Lookup the size of the file at path `p`, `none` when no such file. -/
def fsLookup : FS → String → Option Nat
  | [], _ => none
  | e :: rest, p => if e.1 = p then some e.2 else fsLookup rest p

/-- `RNFS.exists`: does a file exist at path `p`? -/
def fsExists (fs : FS) (p : String) : Bool :=
  (fsLookup fs p).isSome

/-- `RNFS.unlink`: remove the file at path `p` (no-op when absent). -/
def fsRemove (fs : FS) (p : String) : FS :=
  fs.filter (fun e => e.1 ≠ p)

/-- Write a file of `n` bytes at path `p`, replacing any previous file. -/
def fsSet (fs : FS) (p : String) (n : Nat) : FS :=
  (p, n) :: fsRemove fs p

/-- Number of directory entries under path `p` (0 or 1 for a well-formed FS). -/
def countPath (fs : FS) (p : String) : Nat :=
  (fs.filter (fun e => e.1 = p)).length

/-- JS `s.endsWith(t)`: is `t` a suffix of `s`? -/
def strEndsWith (s t : String) : Bool :=
  decide (t.data <:+ s.data)

/-- Try to strip the pattern `pat` from the front of `s`; `none` when `pat`
is not a prefix of `s`. -/
def dropPat? : List Char → List Char → Option (List Char)
  | [], s => some s
  | _ :: _, [] => none
  | p :: ps, c :: cs => if p = c then dropPat? ps cs else none

/-- Remove the first (leftmost) occurrence of `pat` from `s`; `s` unchanged
when `pat` does not occur.  This is JS `s.replace(pat, '')` for a string
pattern, which replaces only the first occurrence. -/
def removeFirstOccChars : List Char → List Char → List Char
  | [], _ => []
  | c :: cs, pat =>
    match dropPat? pat (c :: cs) with
    | some rest => rest
    | none => c :: removeFirstOccChars cs pat

/-- JS `s.replace(pat, '')` with a string pattern: removes the first
occurrence of `pat` only. -/
def jsReplaceFirst (s pat : String) : String :=
  String.mk (removeFirstOccChars s.data pat.data)

/-- Number of start positions at which `pat` occurs as a substring of `s`
(the pattern `".gguf"` has no self-overlap, so for it this is the plain
occurrence count). -/
def occCountChars : List Char → List Char → Nat
  | [], _ => 0
  | c :: cs, pat =>
    (if (dropPat? pat (c :: cs)).isSome then 1 else 0) + occCountChars cs pat

/-- Occurrence count lifted to `String`. -/
def occCount (s pat : String) : Nat :=
  occCountChars s.data pat.data

/-- The `Model` record of `types/index.ts` (the `ArtifactRecord` of the
spec): `id` is the uuid, `dateDownloaded` the timestamp. -/
structure Model where
  id : Nat
  name : String
  path : String
  size : Nat
  dateDownloaded : Nat
  deriving DecidableEq, Repr

/-- The error taxonomy of `fileSystem.ts` (each constructor corresponds to
one `throw new Error(...)` site, plus `network` for a rejected
`RNFS.downloadFile` promise and `statFailed` for a failing `RNFS.stat`). -/
inductive FsError where
  | alreadyExists (nm : String)
  | statusCode (code : Nat)
  | network (msg : String)
  | statFailed (p : String)
  | notExist (p : String)
  deriving DecidableEq, Repr

/-- One entry returned by `RNFS.readDir`: name, full path, reported size
(absent for some platforms/directories), and whether it is a regular file.
The source reads only `name`, `path` and `size`. -/
structure DirEntry where
  name : String
  path : String
  size : Option Nat
  isFile : Bool
  deriving DecidableEq, Repr

/-- `getModelsDirectory` of `fileSystem.ts`: documents directory on iOS,
external directory on Android, with `/gguf-models` appended. -/
inductive PlatformOS where
  | ios
  | android
  deriving DecidableEq, Repr

def getModelsDirectory (os : PlatformOS) (documentDirectoryPath externalDirectoryPath : String) : String :=
  (match os with
   | .ios => documentDirectoryPath
   | .android => externalDirectoryPath) ++ "/gguf-models"

/-- The loop body of `getDownloadedModels`: walk the directory listing,
pushing one record per entry whose name ends in `.gguf`.  `nextId` models
the fresh-uuid supply (`uuidv4()` per pushed record), `now` the shared
`new Date()` timestamp. -/
def scanLoop : List DirEntry → Nat → Nat → List Model
  | [], _, _ => []
  | file :: rest, nextId, now =>
    if strEndsWith file.name ".gguf" then
      { id := nextId
        name := jsReplaceFirst file.name ".gguf"
        path := file.path
        size := file.size.getD 0
        dateDownloaded := now } :: scanLoop rest (nextId + 1) now
    else scanLoop rest nextId now

/-- `getDownloadedModels` of `fileSystem.ts`, given the listing that
`RNFS.readDir` returned for the models directory.  (The surrounding
try/catch that degrades an enumeration failure to `[]` is outside this
model: the listing is taken as an input.) -/
def getDownloadedModels (files : List DirEntry) (now : Nat) : List Model :=
  scanLoop files 0 now

/-- The transport's behaviour during one `RNFS.downloadFile` call:
`events` are the `(bytesWritten, contentLength)` pairs delivered to the
`progress` handler before the promise settles, `outcome` is how the promise
settles (`.error msg` for a rejection, `.ok code` with the HTTP status
code), and `finalBytes` is the content of the destination file when the
promise has settled (`none`: no file was created / nothing left on disk). -/
structure NetBehavior where
  events : List (Nat × Nat)
  outcome : Except String Nat
  finalBytes : Option Nat
  deriving Repr

/-- The observable result of one `downloadGGUFModel` call: the
resolved/rejected promise value, the filesystem afterwards, the values
passed to `progressCallback` in order, and whether `RNFS.downloadFile`
(the only network operation) was invoked at all. -/
structure DlOutcome where
  res : Except FsError Model
  fs : FS
  progressCalls : List ℚ
  networkStarted : Bool
  deriving Repr

/-- The name normalization at the top of `downloadGGUFModel`:
`modelName.endsWith('.gguf') ? modelName : modelName + '.gguf'`. -/
def sanitizeModelName (modelName : String) : String :=
  if strEndsWith modelName ".gguf" then modelName else modelName ++ ".gguf"

/-- `downloadGGUFModel` of `fileSystem.ts`.  `modelsDir` is the value of
`getModelsDirectory()`, `net` the transport behaviour of the single
`RNFS.downloadFile` call, `newId` the `uuidv4()` value and `now` the
`new Date()` timestamp.  The `catch` block's cleanup (`exists` then
`unlink` of the partial file) is reproduced before each rethrown error. -/
def downloadGGUFModel (fs : FS) (modelsDir url modelName : String)
    (net : NetBehavior) (newId now : Nat) : DlOutcome :=
  let sanitizedModelName := sanitizeModelName modelName
  let destPath := modelsDir ++ "/" ++ sanitizedModelName
  if fsExists fs destPath then
    { res := .error (.alreadyExists sanitizedModelName)
      fs := fs
      progressCalls := []
      networkStarted := false }
  else
    let progressCalls := net.events.map (fun e => (e.1 : ℚ) / (e.2 : ℚ))
    let fs1 : FS :=
      match net.finalBytes with
      | some n => fsSet fs destPath n
      | none => fs
    match net.outcome with
    | .error msg =>
      { res := .error (.network msg)
        fs := if fsExists fs1 destPath then fsRemove fs1 destPath else fs1
        progressCalls := progressCalls
        networkStarted := true }
    | .ok code =>
      if code ≠ 200 then
        { res := .error (.statusCode code)
          fs := if fsExists fs1 destPath then fsRemove fs1 destPath else fs1
          progressCalls := progressCalls
          networkStarted := true }
      else
        match fsLookup fs1 destPath with
        | none =>
          { res := .error (.statFailed destPath)
            fs := if fsExists fs1 destPath then fsRemove fs1 destPath else fs1
            progressCalls := progressCalls
            networkStarted := true }
        | some sz =>
          { res := .ok { id := newId
                         name := modelName
                         path := destPath
                         size := sz
                         dateDownloaded := now }
            fs := fs1
            progressCalls := progressCalls
            networkStarted := true }

/-- `deleteGGUFModel` of `fileSystem.ts`: the try/catch logs and rethrows,
so the observable behaviour is: throw when the file does not exist,
otherwise unlink and resolve with `true`. -/
def deleteGGUFModel (fs : FS) (modelPath : String) : Except FsError Bool × FS :=
  if fsExists fs modelPath then
    (.ok true, fsRemove fs modelPath)
  else
    (.error (.notExist modelPath), fs)

/-- `handleModelDelete` of `App.tsx`: await the delete; on success filter
the model out of the in-memory list by `id`; on error only log, leaving the
list unchanged. -/
def handleModelDelete (fs : FS) (models : List Model) (model : Model) : FS × List Model :=
  match deleteGGUFModel fs model.path with
  | (Except.ok _, fs2) => (fs2, models.filter (fun m => m.id ≠ model.id))
  | (Except.error _, fs2) => (fs2, models)

/-- `handleModelDownloaded` of `App.tsx`: append the new record. -/
def handleModelDownloaded (models : List Model) (model : Model) : List Model :=
  models ++ [model]

/-- Mutual consistency, store → disk direction: every record in the
in-memory catalog points at an existing file. -/
def storeFsConsistent (fs : FS) (store : List Model) : Prop :=
  ∀ m ∈ store, fsExists fs m.path = true

/-- An artifact path under the root `modelsDir`: a file directly inside the
artifact root whose name carries the recognized extension. -/
def isArtifactPath (modelsDir p : String) : Prop :=
  ∃ nm, strEndsWith nm ".gguf" = true ∧ p = modelsDir ++ "/" ++ nm

/-- Mutual consistency, disk → store direction: every artifact file on disk
has a corresponding record in the in-memory catalog. -/
def fsStoreComplete (modelsDir : String) (fs : FS) (store : List Model) : Prop :=
  ∀ p, fsExists fs p = true → isArtifactPath modelsDir p → ∃ m ∈ store, m.path = p

/-- Full mutual consistency between the filesystem and the Catalog Store:
no record points at a missing file, and every artifact file on disk is
listed. -/
def mutualConsistent (modelsDir : String) (fs : FS) (store : List Model) : Prop :=
  storeFsConsistent fs store ∧ fsStoreComplete modelsDir fs store

/-! ### Basic lemmas about the filesystem model -/

lemma fsLookup_fsRemove_self (fs : FS) (p : String) :
    fsLookup (fsRemove fs p) p = none := by
  induction fs with
  | nil => rfl
  | cons e rest ih =>
    by_cases h : e.1 = p
    · simpa [fsRemove, List.filter_cons, h] using ih
    · simpa [fsRemove, List.filter_cons, h, fsLookup] using ih

lemma fsLookup_fsRemove_ne (fs : FS) (p q : String) (h : q ≠ p) :
    fsLookup (fsRemove fs p) q = fsLookup fs q := by
  induction fs with
  | nil => rfl
  | cons e rest ih =>
    by_cases he : e.1 = p
    · have hne : e.1 ≠ q := fun hq => h (by rw [← hq, he])
      have h1 : fsRemove (e :: rest) p = fsRemove rest p := by
        simp [fsRemove, List.filter_cons, he]
      have h2 : fsLookup (e :: rest) q = fsLookup rest q := by
        simp [fsLookup, hne]
      rw [h1, h2, ih]
    · have h1 : fsRemove (e :: rest) p = e :: fsRemove rest p := by
        simp [fsRemove, List.filter_cons, he]
      rw [h1]
      by_cases heq : e.1 = q
      · simp [fsLookup, heq]
      · simp [fsLookup, heq, ih]

lemma fsExists_fsRemove_self (fs : FS) (p : String) :
    fsExists (fsRemove fs p) p = false := by
  simp [fsExists, fsLookup_fsRemove_self]

lemma fsExists_fsRemove_ne (fs : FS) (p q : String) (h : q ≠ p) :
    fsExists (fsRemove fs p) q = fsExists fs q := by
  simp [fsExists, fsLookup_fsRemove_ne fs p q h]

lemma fsLookup_fsSet_self (fs : FS) (p : String) (n : Nat) :
    fsLookup (fsSet fs p n) p = some n := by
  simp [fsSet, fsLookup]

lemma fsLookup_fsSet_ne (fs : FS) (p q : String) (n : Nat) (h : q ≠ p) :
    fsLookup (fsSet fs p n) q = fsLookup fs q := by
  have : p ≠ q := fun hpq => h hpq.symm
  simp [fsSet, fsLookup, this, fsLookup_fsRemove_ne fs p q h]

lemma fsExists_fsSet_self (fs : FS) (p : String) (n : Nat) :
    fsExists (fsSet fs p n) p = true := by
  simp [fsExists, fsLookup_fsSet_self]

lemma fsExists_fsSet_of_exists (fs : FS) (p q : String) (n : Nat)
    (h : fsExists fs q = true) : fsExists (fsSet fs p n) q = true := by
  by_cases hq : q = p
  · subst hq; exact fsExists_fsSet_self fs q n
  · rw [fsExists, fsLookup_fsSet_ne fs p q n hq]; exact h

lemma countPath_fsRemove_self (fs : FS) (p : String) :
    countPath (fsRemove fs p) p = 0 := by
  induction fs with
  | nil => rfl
  | cons e rest ih =>
    by_cases h : e.1 = p
    · simpa [fsRemove, List.filter_cons, h, countPath] using ih
    · simpa [fsRemove, List.filter_cons, h, countPath] using ih

lemma countPath_fsSet_self (fs : FS) (p : String) (n : Nat) :
    countPath (fsSet fs p n) p = 1 := by
  have h := countPath_fsRemove_self fs p
  simp [fsSet, countPath, List.filter_cons] at *
  exact h

lemma fsExists_cleanup (fs : FS) (p : String) :
    fsExists (if fsExists fs p then fsRemove fs p else fs) p = false := by
  cases hb : fsExists fs p with
  | false => simp [hb]
  | true => simp [hb, fsExists_fsRemove_self]

lemma fsLookup_cleanup_ne (fs : FS) (p q : String) (h : q ≠ p) :
    fsLookup (if fsExists fs p then fsRemove fs p else fs) q = fsLookup fs q := by
  by_cases hex : fsExists fs p
  · simp [hex, fsLookup_fsRemove_ne fs p q h]
  · simp [hex]

lemma fsExists_false_lookup_none (fs : FS) (p : String)
    (h : fsExists fs p = false) : fsLookup fs p = none := by
  rw [fsExists] at h
  exact Option.not_isSome_iff_eq_none.mp (by simp [h])

lemma delete_missing_eq (fs : FS) (p : String) (h : fsExists fs p = false) :
    deleteGGUFModel fs p = (Except.error (FsError.notExist p), fs) := by
  simp [deleteGGUFModel, h]

/-! ### Case analysis of `downloadGGUFModel` -/

/-- Exhaustive description of one `downloadGGUFModel` call: either the
collision check fires (no network, no progress, filesystem untouched), or
the download runs and either fails with the destination file cleaned up and
every other path untouched, or succeeds with exactly the transport's final
bytes under the destination path. -/
lemma downloadGGUFModel_cases (fs : FS) (modelsDir url modelName : String)
    (net : NetBehavior) (newId now : Nat) (d : String) (r : DlOutcome)
    (hd : d = modelsDir ++ "/" ++ sanitizeModelName modelName)
    (hr : r = downloadGGUFModel fs modelsDir url modelName net newId now) :
    (fsExists fs d = true ∧
      r = { res := .error (.alreadyExists (sanitizeModelName modelName)), fs := fs,
            progressCalls := [], networkStarted := false }) ∨
    (fsExists fs d = false ∧
      r.progressCalls = net.events.map (fun e => (e.1 : ℚ) / (e.2 : ℚ)) ∧
      r.networkStarted = true ∧
      ((∃ e, r.res = .error e ∧ fsExists r.fs d = false ∧
          ∀ q, q ≠ d → fsLookup r.fs q = fsLookup fs q) ∨
       (∃ n, net.finalBytes = some n ∧
          r.res = .ok { id := newId, name := modelName, path := d,
                        size := n, dateDownloaded := now } ∧
          r.fs = fsSet fs d n))) := by
  subst hd hr
  by_cases h : fsExists fs (modelsDir ++ "/" ++ sanitizeModelName modelName) = true
  · left
    refine ⟨h, ?_⟩
    simp [downloadGGUFModel, h]
  · right
    have h' : fsExists fs (modelsDir ++ "/" ++ sanitizeModelName modelName) = false :=
      Bool.not_eq_true _ ▸ (by simpa using h)
    have hnone : fsLookup fs (modelsDir ++ "/" ++ sanitizeModelName modelName) = none :=
      fsExists_false_lookup_none _ _ h'
    refine ⟨h', ?_⟩
    rcases hf : net.finalBytes with _ | n
    · -- no file left by the transport: fs1 = fs
      rcases ho : net.outcome with msg | code
      · simp only [downloadGGUFModel, h', hf, ho]
        refine ⟨by simp, by simp, Or.inl ⟨.network msg, by simp, ?_, ?_⟩⟩
        · exact h'
        · intro q hq
          rfl
      · by_cases hcode : code = 200
        · subst hcode
          simp only [downloadGGUFModel, h', hf, ho, hnone]
          refine ⟨by simp, by simp, Or.inl ⟨.statFailed (modelsDir ++ "/" ++ sanitizeModelName modelName), by simp, ?_, ?_⟩⟩
          · exact h'
          · intro q hq
            rfl
        · simp only [downloadGGUFModel, h', hf, ho, if_neg (by simpa using hcode)]
          refine ⟨by simp [hcode], by simp [hcode], Or.inl ⟨.statusCode code, by simp [hcode], ?_, ?_⟩⟩
          · simp [hcode]
            exact h'
          · intro q hq
            simp [hcode]
    · -- the transport left a file of n bytes: fs1 = fsSet fs destPath n
      have hset : fsLookup (fsSet fs (modelsDir ++ "/" ++ sanitizeModelName modelName) n)
          (modelsDir ++ "/" ++ sanitizeModelName modelName) = some n :=
        fsLookup_fsSet_self _ _ _
      rcases ho : net.outcome with msg | code
      · simp only [downloadGGUFModel, h', hf, ho]
        refine ⟨by simp, by simp, Or.inl ⟨.network msg, by simp, ?_, ?_⟩⟩
        · simpa using fsExists_cleanup (fsSet fs (modelsDir ++ "/" ++ sanitizeModelName modelName) n)
            (modelsDir ++ "/" ++ sanitizeModelName modelName)
        · intro q hq
          have h1 := fsLookup_cleanup_ne (fsSet fs (modelsDir ++ "/" ++ sanitizeModelName modelName) n)
            (modelsDir ++ "/" ++ sanitizeModelName modelName) q hq
          have h2 := fsLookup_fsSet_ne fs (modelsDir ++ "/" ++ sanitizeModelName modelName) q n hq
          simpa [h2] using h1
      · by_cases hcode : code = 200
        · subst hcode
          simp only [downloadGGUFModel, h', hf, ho, hset]
          exact ⟨by simp, by simp, Or.inr ⟨n, rfl, by simp, by simp⟩⟩
        · simp only [downloadGGUFModel, h', hf, ho]
          refine ⟨by simp [hcode], by simp [hcode], Or.inl ⟨.statusCode code, by simp [hcode], ?_, ?_⟩⟩
          · simpa [hcode] using fsExists_cleanup (fsSet fs (modelsDir ++ "/" ++ sanitizeModelName modelName) n)
              (modelsDir ++ "/" ++ sanitizeModelName modelName)
          · intro q hq
            have h1 := fsLookup_cleanup_ne (fsSet fs (modelsDir ++ "/" ++ sanitizeModelName modelName) n)
              (modelsDir ++ "/" ++ sanitizeModelName modelName) q hq
            have h2 := fsLookup_fsSet_ne fs (modelsDir ++ "/" ++ sanitizeModelName modelName) q n hq
            simpa [hcode, h2] using h1

/-! ### Progress sequence lemmas -/

lemma progress_chain_div (c : Nat) (hc : 0 < c) :
    ∀ l : List (Nat × Nat), (∀ e ∈ l, e.2 = c) →
      List.Chain' (fun a b : Nat × Nat => a.1 ≤ b.1) l →
      List.Chain' (fun x y : ℚ => x ≤ y) (l.map (fun e => (e.1 : ℚ) / (e.2 : ℚ)))
  | [], _, _ => by simp
  | [a], _, _ => by simp
  | a :: b :: l, hcl, hm => by
    rw [List.map_cons, List.map_cons, List.chain'_cons]
    obtain ⟨hab, hm2⟩ := List.chain'_cons.mp hm
    have ha : a.2 = c := hcl a (by simp)
    have hb : b.2 = c := hcl b (by simp)
    refine ⟨?_, ?_⟩
    · rw [ha, hb]
      exact (div_le_div_iff_of_pos_right (by exact_mod_cast hc)).mpr (by exact_mod_cast hab)
    · have hrec := progress_chain_div c hc (b :: l)
        (fun e he => hcl e (List.mem_cons_of_mem a he)) hm2
      simpa using hrec

lemma progress_bounds_div (c : Nat) (hc : 0 < c) (l : List (Nat × Nat))
    (hcl : ∀ e ∈ l, e.2 = c) (hle : ∀ e ∈ l, e.1 ≤ c) :
    ∀ q ∈ l.map (fun e => (e.1 : ℚ) / (e.2 : ℚ)), 0 ≤ q ∧ q ≤ 1 := by
  intro q hq
  obtain ⟨e, he, rfl⟩ := List.mem_map.mp hq
  constructor
  · exact div_nonneg (by positivity) (by positivity)
  · rw [hcl e he]
    exact (div_le_one (by exact_mod_cast hc)).mpr (by exact_mod_cast hle e he)

lemma progress_last_div (c : Nat) (hc : 0 < c) (l : List (Nat × Nat))
    (hlast : l.getLast? = some (c, c)) :
    (l.map (fun e => (e.1 : ℚ) / (e.2 : ℚ))).getLast? = some 1 := by
  rw [List.getLast?_map, hlast]
  have hcq : ((c : ℚ)) ≠ 0 := Nat.cast_ne_zero.mpr (Nat.pos_iff_ne_zero.mp hc)
  simp [div_self hcq]

/-! ### Scan projection lemma -/

lemma scanLoop_map {α : Type} (proj : Model → α) (g : DirEntry → α)
    (hpg : ∀ (f : DirEntry) (i now : Nat),
      proj { id := i, name := jsReplaceFirst f.name ".gguf", path := f.path,
             size := f.size.getD 0, dateDownloaded := now } = g f) :
    ∀ (files : List DirEntry) (nextId now : Nat),
      (scanLoop files nextId now).map proj =
        (files.filter (fun f => strEndsWith f.name ".gguf")).map g
  | [], _, _ => by simp [scanLoop]
  | f :: rest, nextId, now => by
    by_cases h : strEndsWith f.name ".gguf" = true
    · simp [scanLoop, h, List.filter_cons, hpg,
        scanLoop_map proj g hpg rest (nextId + 1) now]
    · simp [scanLoop, h, List.filter_cons,
        scanLoop_map proj g hpg rest nextId now]

/-! ### Claim C1: delete of a missing file -/

/-- Claim C1 counterexample: at the concrete absent path the delete
operation raises (the promise rejects with the not-found error) instead of
returning a non-fatal "not found" outcome, refuting the claim as stated. -/
theorem delete_missing_file_raises_cex :
    fsExists ([] : FS) "/docs/gguf-models/m.gguf" = false ∧
    (deleteGGUFModel ([] : FS) "/docs/gguf-models/m.gguf").1 =
      Except.error (FsError.notExist "/docs/gguf-models/m.gguf") :=
  ⟨rfl, rfl⟩

/-- Claim C1 (amended): for every path whose file does not exist,
`deleteGGUFModel` raises the not-found error rather than returning a
non-fatal outcome, and leaves the filesystem unchanged; absence is reported
by raising, exactly like every other failure mode. -/
theorem deleteGGUFModel_missing_raises (fs : FS) (p : String)
    (h : fsExists fs p = false) :
    deleteGGUFModel fs p = (Except.error (FsError.notExist p), fs) := by
  simp [deleteGGUFModel, h]

/-- Witness for `deleteGGUFModel_missing_raises` at a concrete input. -/
theorem deleteGGUFModel_missing_raises_witness :
    fsExists ([("/docs/gguf-models/a.gguf", 3)] : FS) "/docs/gguf-models/b.gguf" = false ∧
    deleteGGUFModel ([("/docs/gguf-models/a.gguf", 3)] : FS) "/docs/gguf-models/b.gguf" =
      (Except.error (FsError.notExist "/docs/gguf-models/b.gguf"),
       ([("/docs/gguf-models/a.gguf", 3)] : FS)) :=
  ⟨by decide, deleteGGUFModel_missing_raises _ _ (by decide)⟩

/-! ### Claim C10: a normal return of delete is always `true` -/

/-- Claim C10: whenever `deleteGGUFModel` returns normally its boolean
result is `true`; every failure mode, including an absent target file, is
reported only by raising. -/
theorem deleteGGUFModel_ok_is_true (fs : FS) (p : String) (b : Bool)
    (h : (deleteGGUFModel fs p).1 = Except.ok b) : b = true := by
  cases b with
  | true => rfl
  | false =>
    exfalso
    by_cases hex : fsExists fs p = true <;> simp [deleteGGUFModel, hex] at h

/-- Witness for `deleteGGUFModel_ok_is_true` at a concrete input. -/
theorem deleteGGUFModel_ok_is_true_witness : true = true :=
  deleteGGUFModel_ok_is_true [("/d/m.gguf", 5)] "/d/m.gguf" true (by rfl)

/-! ### Claim C7: extension normalization -/

/-- Claim C7 counterexample: the requested name `"a.gguf.gguf"` already
carries the extension twice and is returned unchanged, so the normalized
result carries the canonical extension twice, not exactly once. -/
theorem sanitizeModelName_duplicate_cex :
    sanitizeModelName "a.gguf.gguf" = "a.gguf.gguf" ∧
    occCount (sanitizeModelName "a.gguf.gguf") ".gguf" = 2 := by
  exact ⟨by decide, by decide⟩

/-- Claim C7 (amended): the normalizer appends the extension exactly when it
is missing and returns the name unchanged when it already ends with the
extension, so the result always ends with `.gguf` and the normalizer itself
never appends a duplicate; an input already carrying the extension more than
once is kept as-is, not collapsed to a single occurrence. -/
theorem sanitizeModelName_amended (modelName : String) :
    strEndsWith (sanitizeModelName modelName) ".gguf" = true ∧
    (strEndsWith modelName ".gguf" = true → sanitizeModelName modelName = modelName) ∧
    (strEndsWith modelName ".gguf" = false → sanitizeModelName modelName = modelName ++ ".gguf") := by
  by_cases h : strEndsWith modelName ".gguf" = true
  · exact ⟨by simp [sanitizeModelName, h], fun _ => by simp [sanitizeModelName, h],
      fun hf => by rw [h] at hf; cases hf⟩
  · have hf : strEndsWith modelName ".gguf" = false := by simpa using h
    refine ⟨?_, fun ht => absurd ht h, fun _ => by simp [sanitizeModelName, hf]⟩
    have hrw : sanitizeModelName modelName = modelName ++ ".gguf" := by
      simp [sanitizeModelName, hf]
    rw [hrw]
    simp [strEndsWith, String.data_append]

/-- Witness for `sanitizeModelName_amended` at a concrete input. -/
theorem sanitizeModelName_amended_witness :
    sanitizeModelName "model" = "model" ++ ".gguf" :=
  (sanitizeModelName_amended "model").2.2 (by decide)

/-! ### Claim C5: directory scan filtering -/

/-- Claim C5 counterexample: a directory entry that is not a regular file
but whose name ends in `.gguf` is turned into a record rather than being
silently skipped — the scan never consults `isFile`. -/
theorem scan_includes_gguf_directory_cex :
    ({ name := "sub.gguf", path := "/r/sub.gguf", size := none,
       isFile := false } : DirEntry).isFile = false ∧
    getDownloadedModels
        [{ name := "sub.gguf", path := "/r/sub.gguf", size := none, isFile := false }] 0 =
      [{ id := 0, name := "sub", path := "/r/sub.gguf", size := 0, dateDownloaded := 0 }] :=
  ⟨rfl, by decide⟩

/-- Claim C5 (amended): the scan emits one record exactly for each directory
entry whose name ends with the recognized extension, regardless of whether
the entry is a regular file or a subdirectory; entries whose names do not
end with the extension are silently skipped.  Scanning a root containing
regular files `a.gguf`, `b.gguf` and `notes.txt` still yields exactly two
records, named `a` and `b`. -/
theorem getDownloadedModels_name_filter :
    (∀ (files : List DirEntry) (now : Nat),
      (getDownloadedModels files now).map (fun m => (m.name, m.path, m.size)) =
        (files.filter (fun f => strEndsWith f.name ".gguf")).map
          (fun f => (jsReplaceFirst f.name ".gguf", f.path, f.size.getD 0))) ∧
    (getDownloadedModels
        [{ name := "a.gguf", path := "/r/a.gguf", size := some 10, isFile := true },
         { name := "b.gguf", path := "/r/b.gguf", size := some 20, isFile := true },
         { name := "notes.txt", path := "/r/notes.txt", size := some 3, isFile := true }] 0).map
      (fun m => m.name) = ["a", "b"] := by
  refine ⟨?_, by decide⟩
  intro files now
  exact scanLoop_map _ _ (fun f i now2 => rfl) files 0 now

/-! ### Claim C6: record names -/

/-- Claim C6 counterexample: the scan strips the first occurrence of
`.gguf`, not the trailing one (`"a.ggufb.gguf"` becomes `"ab.gguf"`, not
`"a.ggufb"`), and a successful download's record keeps the originally
requested name unmodified (requesting `"m.gguf"` yields name `"m.gguf"`,
not `"m"`); both refute deriving `name` by stripping the extension from the
end of the filename. -/
theorem record_name_not_stripped_cex :
    ((getDownloadedModels
        [{ name := "a.ggufb.gguf", path := "/r/a.ggufb.gguf", size := some 1, isFile := true }]
        0).map (fun m => m.name) = ["ab.gguf"] ∧
      ("ab.gguf" : String) ≠ "a.ggufb") ∧
    ((downloadGGUFModel [] "/d" "u" "m.gguf"
        { events := [(1000, 1000)], outcome := Except.ok 200, finalBytes := some 1000 }
        7 3).res =
        Except.ok { id := 7, name := "m.gguf", path := "/d/m.gguf",
                    size := 1000, dateDownloaded := 3 } ∧
      ("m.gguf" : String) ≠ "m") :=
  ⟨⟨by decide, by decide⟩, ⟨by rfl, by decide⟩⟩

/-- Claim C6 (amended): a record produced by the scan has `name` equal to
the filename with the first occurrence of `.gguf` removed (which coincides
with stripping the extension from the end only when `.gguf` does not occur
earlier in the name), and a record produced by a successful download has
`name` equal to the requested name unmodified (which equals the filename
with the extension stripped only when the requested name did not already
carry the extension). -/
theorem record_name_amended :
    (∀ (files : List DirEntry) (now : Nat),
      (getDownloadedModels files now).map (fun m => m.name) =
        (files.filter (fun f => strEndsWith f.name ".gguf")).map
          (fun f => jsReplaceFirst f.name ".gguf")) ∧
    (∀ (fs : FS) (modelsDir url modelName : String) (net : NetBehavior)
        (newId now : Nat) (m : Model),
      (downloadGGUFModel fs modelsDir url modelName net newId now).res = Except.ok m →
      m.name = modelName) := by
  constructor
  · intro files now
    exact scanLoop_map _ _ (fun f i now2 => rfl) files 0 now
  · intro fs modelsDir url modelName net newId now m h
    rcases downloadGGUFModel_cases fs modelsDir url modelName net newId now _ _ rfl rfl with
      ⟨_, hr⟩ | ⟨_, _, _, ⟨e2, herr, _, _⟩ | ⟨n, _, hok, _⟩⟩
    · simp [hr] at h
    · rw [herr] at h; cases h
    · have hmn := hok.symm.trans h
      cases hmn
      rfl

/-- Witness for `record_name_amended` at a concrete input. -/
theorem record_name_amended_witness :
    ({ id := 7, name := "m", path := "/d/m.gguf", size := 1000,
       dateDownloaded := 3 } : Model).name = "m" :=
  record_name_amended.2 [] "/d" "u" "m"
    { events := [(1000, 1000)], outcome := Except.ok 200, finalBytes := some 1000 } 7 3
    { id := 7, name := "m", path := "/d/m.gguf", size := 1000, dateDownloaded := 3 }
    (by rfl)

/-! ### Claim C4: name collision check before network activity -/

/-- Claim C4: when the normalized destination name already exists in the
artifact root, `downloadGGUFModel` fails with the name-collision error
before any network activity: `RNFS.downloadFile` is never invoked, no
progress callback fires, and the filesystem is untouched. -/
theorem downloadGGUFModel_collision_no_network (fs : FS)
    (modelsDir url modelName : String) (net : NetBehavior) (newId now : Nat)
    (h : fsExists fs (modelsDir ++ "/" ++ sanitizeModelName modelName) = true) :
    downloadGGUFModel fs modelsDir url modelName net newId now =
      { res := Except.error (FsError.alreadyExists (sanitizeModelName modelName)),
        fs := fs, progressCalls := [], networkStarted := false } := by
  rcases downloadGGUFModel_cases fs modelsDir url modelName net newId now _ _ rfl rfl with
    ⟨_, hr⟩ | ⟨hfalse, _⟩
  · exact hr
  · rw [h] at hfalse; cases hfalse

/-- Witness for `downloadGGUFModel_collision_no_network` at a concrete
input. -/
theorem downloadGGUFModel_collision_no_network_witness :
    fsExists [("/d/m.gguf", 5)] ("/d" ++ "/" ++ sanitizeModelName "m") = true ∧
    downloadGGUFModel [("/d/m.gguf", 5)] "/d" "u" "m"
        { events := [(500, 1000)], outcome := Except.ok 200, finalBytes := some 1000 } 1 2 =
      { res := Except.error (FsError.alreadyExists (sanitizeModelName "m")),
        fs := [("/d/m.gguf", 5)], progressCalls := [], networkStarted := false } :=
  ⟨by decide, downloadGGUFModel_collision_no_network _ _ _ _ _ _ _ (by decide)⟩

/-! ### Claim C3: failed downloads leave no file under the destination name -/

/-- Claim C3: every download that fails after the network transfer started —
promise rejection, non-200 status, or a failing stat of the written file —
leaves no file under the normalized destination name: the partial file is
unlinked before the error is surfaced. -/
theorem downloadGGUFModel_failed_download_no_file (fs : FS)
    (modelsDir url modelName : String) (net : NetBehavior) (newId now : Nat) (e : FsError)
    (hstart : (downloadGGUFModel fs modelsDir url modelName net newId now).networkStarted = true)
    (herr : (downloadGGUFModel fs modelsDir url modelName net newId now).res = Except.error e) :
    fsExists (downloadGGUFModel fs modelsDir url modelName net newId now).fs
      (modelsDir ++ "/" ++ sanitizeModelName modelName) = false := by
  rcases downloadGGUFModel_cases fs modelsDir url modelName net newId now _ _ rfl rfl with
    ⟨_, hr⟩ | ⟨_, _, _, ⟨e2, _, hclean, _⟩ | ⟨n, _, hok, _⟩⟩
  · simp [hr] at hstart
  · exact hclean
  · rw [hok] at herr; cases herr

/-- Witness for `downloadGGUFModel_failed_download_no_file`: a transfer that
rejects mid-stream with 600 of 1000 bytes written leaves no destination
file. -/
theorem downloadGGUFModel_failed_download_no_file_witness :
    fsExists (downloadGGUFModel [] "/d" "u" "m"
        { events := [(600, 1000)], outcome := Except.error "network dropped",
          finalBytes := some 600 } 1 2).fs
      ("/d" ++ "/" ++ sanitizeModelName "m") = false :=
  downloadGGUFModel_failed_download_no_file [] "/d" "u" "m"
    { events := [(600, 1000)], outcome := Except.error "network dropped",
      finalBytes := some 600 } 1 2
    (FsError.network "network dropped") (by rfl) (by rfl)

/-! ### Claim C8: successful downloads and the recorded size -/

/-- Claim C8: a successful download leaves exactly one file under the
normalized destination name, the returned record points at that path, and
the record's size equals the byte length of the file as it exists after the
write completed (which is exactly the transport's final byte count, never a
mid-write sample). -/
theorem downloadGGUFModel_success_size (fs : FS)
    (modelsDir url modelName : String) (net : NetBehavior) (newId now : Nat) (m : Model)
    (h : (downloadGGUFModel fs modelsDir url modelName net newId now).res = Except.ok m) :
    m.path = modelsDir ++ "/" ++ sanitizeModelName modelName ∧
    fsLookup (downloadGGUFModel fs modelsDir url modelName net newId now).fs m.path =
      some m.size ∧
    countPath (downloadGGUFModel fs modelsDir url modelName net newId now).fs m.path = 1 ∧
    net.finalBytes = some m.size := by
  rcases downloadGGUFModel_cases fs modelsDir url modelName net newId now _ _ rfl rfl with
    ⟨_, hr⟩ | ⟨_, _, _, ⟨e2, herr, _, _⟩ | ⟨n, hfb, hok, hfs⟩⟩
  · simp [hr] at h
  · rw [herr] at h; cases h
  · have hmn := hok.symm.trans h
    cases hmn
    refine ⟨rfl, ?_, ?_, hfb⟩
    · rw [hfs]
      exact fsLookup_fsSet_self _ _ _
    · rw [hfs]
      exact countPath_fsSet_self _ _ _

/-- Witness for `downloadGGUFModel_success_size`: downloading 1000 bytes in
chunks of 600 and 400 yields a record of size 1000 and exactly one file of
1000 bytes under the destination name. -/
theorem downloadGGUFModel_success_size_witness :
    ({ id := 1, name := "model", path := "/d/model.gguf", size := 1000,
       dateDownloaded := 2 } : Model).path = "/d" ++ "/" ++ sanitizeModelName "model" ∧
    fsLookup (downloadGGUFModel [] "/d" "u" "model"
        { events := [(600, 1000), (1000, 1000)], outcome := Except.ok 200,
          finalBytes := some 1000 } 1 2).fs "/d/model.gguf" = some 1000 ∧
    countPath (downloadGGUFModel [] "/d" "u" "model"
        { events := [(600, 1000), (1000, 1000)], outcome := Except.ok 200,
          finalBytes := some 1000 } 1 2).fs "/d/model.gguf" = 1 ∧
    ({ events := [(600, 1000), (1000, 1000)], outcome := Except.ok 200,
       finalBytes := some 1000 } : NetBehavior).finalBytes = some 1000 :=
  downloadGGUFModel_success_size [] "/d" "u" "model"
    { events := [(600, 1000), (1000, 1000)], outcome := Except.ok 200,
      finalBytes := some 1000 } 1 2
    { id := 1, name := "model", path := "/d/model.gguf", size := 1000, dateDownloaded := 2 }
    (by rfl)

/-! ### Claim C9: progress callback contract -/

/-- Claim C9: under the transport contract — every progress event reports
the same positive `contentLength` `c`, byte counts are non-decreasing and
never exceed `c` — the values handed to the progress callback form a
non-decreasing sequence inside `[0, 1]`; on a successful download whose
final transport event reports all `c` of `c` bytes, the sequence ends at
`1`; and the callback fires exactly once per transport event delivered
before the operation settles (last conjunct), hence never after
settlement. -/
theorem downloadGGUFModel_progress_contract (fs : FS)
    (modelsDir url modelName : String) (net : NetBehavior) (newId now : Nat)
    (c : Nat) (hc : 0 < c)
    (hcl : ∀ e ∈ net.events, e.2 = c)
    (hmono : List.Chain' (fun a b : Nat × Nat => a.1 ≤ b.1) net.events)
    (hle : ∀ e ∈ net.events, e.1 ≤ c) :
    List.Chain' (fun x y : ℚ => x ≤ y)
      (downloadGGUFModel fs modelsDir url modelName net newId now).progressCalls ∧
    (∀ q ∈ (downloadGGUFModel fs modelsDir url modelName net newId now).progressCalls,
      0 ≤ q ∧ q ≤ 1) ∧
    (∀ m, (downloadGGUFModel fs modelsDir url modelName net newId now).res = Except.ok m →
      net.events.getLast? = some (c, c) →
      (downloadGGUFModel fs modelsDir url modelName
        net newId now).progressCalls.getLast? = some 1) ∧
    ((downloadGGUFModel fs modelsDir url modelName net newId now).progressCalls = [] ∨
     (downloadGGUFModel fs modelsDir url modelName net newId now).progressCalls =
       net.events.map (fun e => (e.1 : ℚ) / (e.2 : ℚ))) := by
  rcases downloadGGUFModel_cases fs modelsDir url modelName net newId now _ _ rfl rfl with
    ⟨_, hr⟩ | ⟨_, hpc, _, _⟩
  · refine ⟨?_, ?_, ?_, Or.inl ?_⟩
    · simp [hr]
    · simp [hr]
    · intro m hok
      simp [hr] at hok
    · simp [hr]
  · rw [hpc]
    exact ⟨progress_chain_div c hc net.events hcl hmono,
           progress_bounds_div c hc net.events hcl hle,
           fun m hok hlast => progress_last_div c hc net.events hlast,
           Or.inr rfl⟩

/-- Witness for `downloadGGUFModel_progress_contract`: the spec's 600/400
two-chunk download of 1000 bytes yields the non-decreasing progress
sequence 0.6, 1.0. -/
theorem downloadGGUFModel_progress_contract_witness :
    List.Chain' (fun x y : ℚ => x ≤ y)
      (downloadGGUFModel [] "/d" "u" "model"
        { events := [(600, 1000), (1000, 1000)], outcome := Except.ok 200,
          finalBytes := some 1000 } 1 2).progressCalls :=
  (downloadGGUFModel_progress_contract [] "/d" "u" "model"
    { events := [(600, 1000), (1000, 1000)], outcome := Except.ok 200,
      finalBytes := some 1000 } 1 2 1000
    (by decide) (by decide)
    (List.chain'_cons.mpr ⟨by decide, List.chain'_singleton _⟩)
    (by decide)).1

/-! ### Claim C2: store/filesystem mutual consistency -/

/-- Claim C2 counterexample: deleting a record whose backing file is already
absent completes (the rejection is caught and only logged), yet afterwards
the Catalog Store still lists the record while no file exists at its path —
store and filesystem are not mutually consistent after this delete. -/
theorem stale_record_after_failed_delete_cex :
    (handleModelDelete ([] : FS)
        [{ id := 1, name := "m", path := "/d/m.gguf", size := 5, dateDownloaded := 0 }]
        { id := 1, name := "m", path := "/d/m.gguf", size := 5, dateDownloaded := 0 }).2 =
      [{ id := 1, name := "m", path := "/d/m.gguf", size := 5, dateDownloaded := 0 }] ∧
    fsExists (handleModelDelete ([] : FS)
        [{ id := 1, name := "m", path := "/d/m.gguf", size := 5, dateDownloaded := 0 }]
        { id := 1, name := "m", path := "/d/m.gguf", size := 5, dateDownloaded := 0 }).1
      "/d/m.gguf" = false :=
  ⟨rfl, rfl⟩

/-- Claim C2 (amended): full mutual consistency between the filesystem and
the Catalog Store — no record points at a missing file, and every artifact
file on disk has a record — is preserved in both directions by every
successful delete (on a store whose records share the deleted record's path
exactly when they share its id), by every successful download followed by
the store append, and by every failed download; a failed delete, however,
leaves both the store and the filesystem completely unchanged, so deleting
a record whose backing file was already removed externally completes with
the stale record still listed, violating the record → disk direction. -/
theorem store_fs_consistency_amended :
    (∀ (modelsDir : String) (fs : FS) (store : List Model) (mdl : Model),
      mutualConsistent modelsDir fs store →
      (∀ m ∈ store, (m.path = mdl.path ↔ m.id = mdl.id)) →
      (deleteGGUFModel fs mdl.path).1 = Except.ok true →
      mutualConsistent modelsDir (handleModelDelete fs store mdl).1
        (handleModelDelete fs store mdl).2) ∧
    (∀ (fs : FS) (modelsDir url modelName : String) (net : NetBehavior)
        (newId now : Nat) (store : List Model) (m : Model),
      mutualConsistent modelsDir fs store →
      (downloadGGUFModel fs modelsDir url modelName net newId now).res = Except.ok m →
      mutualConsistent modelsDir
        (downloadGGUFModel fs modelsDir url modelName net newId now).fs
        (handleModelDownloaded store m)) ∧
    (∀ (fs : FS) (modelsDir url modelName : String) (net : NetBehavior)
        (newId now : Nat) (store : List Model) (e : FsError),
      mutualConsistent modelsDir fs store →
      (downloadGGUFModel fs modelsDir url modelName net newId now).res = Except.error e →
      mutualConsistent modelsDir
        (downloadGGUFModel fs modelsDir url modelName net newId now).fs store) ∧
    (∀ (fs : FS) (store : List Model) (mdl : Model) (e : FsError),
      (deleteGGUFModel fs mdl.path).1 = Except.error e →
      handleModelDelete fs store mdl = (fs, store)) := by
  refine ⟨?_, ?_, ?_, ?_⟩
  · -- successful delete preserves both directions
    intro modelsDir fs store mdl hcons hiff hok
    obtain ⟨hsd, hds⟩ := hcons
    have hex : fsExists fs mdl.path = true := by
      by_cases hb : fsExists fs mdl.path = true
      · exact hb
      · have hb2 : fsExists fs mdl.path = false := by simpa using hb
        rw [delete_missing_eq fs mdl.path hb2] at hok
        cases hok
    have hdel : deleteGGUFModel fs mdl.path = (Except.ok true, fsRemove fs mdl.path) := by
      simp [deleteGGUFModel, hex]
    simp only [handleModelDelete, hdel]
    constructor
    · intro m hm
      obtain ⟨hmem, hid⟩ := List.mem_filter.mp hm
      have hid2 : m.id ≠ mdl.id := by simpa using hid
      have hpath : m.path ≠ mdl.path := fun hp => hid2 ((hiff m hmem).mp hp)
      rw [fsExists_fsRemove_ne fs mdl.path m.path hpath]
      exact hsd m hmem
    · intro p hp hart
      by_cases hpd : p = mdl.path
      · rw [hpd, fsExists_fsRemove_self] at hp
        cases hp
      · rw [fsExists_fsRemove_ne fs mdl.path p hpd] at hp
        obtain ⟨m, hmem, hmp⟩ := hds p hp hart
        have hmid : m.id ≠ mdl.id := by
          intro hid
          have hmpath : m.path = mdl.path := (hiff m hmem).mpr hid
          exact hpd (by rw [← hmp]; exact hmpath)
        exact ⟨m, List.mem_filter.mpr ⟨hmem, by simpa using hmid⟩, hmp⟩
  · -- successful download plus append preserves both directions
    intro fs modelsDir url modelName net newId now store m hcons h
    obtain ⟨hsd, hds⟩ := hcons
    rcases downloadGGUFModel_cases fs modelsDir url modelName net newId now _ _ rfl rfl with
      ⟨_, hr⟩ | ⟨_, _, _, ⟨e2, herr, _, _⟩ | ⟨n, hfb, hok, hfs⟩⟩
    · simp [hr] at h
    · rw [herr] at h; cases h
    · have hmn := hok.symm.trans h
      cases hmn
      constructor
      · intro x hx
        have hx2 : x ∈ store ++
            [({ id := newId, name := modelName,
                path := modelsDir ++ "/" ++ sanitizeModelName modelName,
                size := n, dateDownloaded := now } : Model)] := hx
        rcases List.mem_append.mp hx2 with hx3 | hx3
        · rw [hfs]
          exact fsExists_fsSet_of_exists _ _ _ _ (hsd x hx3)
        · have hxe : x =
              ({ id := newId, name := modelName,
                 path := modelsDir ++ "/" ++ sanitizeModelName modelName,
                 size := n, dateDownloaded := now } : Model) := List.mem_singleton.mp hx3
          subst hxe
          rw [hfs]
          exact fsExists_fsSet_self _ _ _
      · intro p hp hart
        by_cases hpd : p = modelsDir ++ "/" ++ sanitizeModelName modelName
        · refine ⟨({ id := newId, name := modelName,
                     path := modelsDir ++ "/" ++ sanitizeModelName modelName,
                     size := n, dateDownloaded := now } : Model),
            List.mem_append_right _ (List.mem_singleton.mpr rfl), ?_⟩
          rw [hpd]
        · rw [hfs] at hp
          have hp2 : fsExists fs p = true := by
            simp only [fsExists] at hp ⊢
            rw [← fsLookup_fsSet_ne fs (modelsDir ++ "/" ++ sanitizeModelName modelName) p n hpd]
            exact hp
          obtain ⟨x, hmem, hxp⟩ := hds p hp2 hart
          exact ⟨x, List.mem_append_left _ hmem, hxp⟩
  · -- failed download preserves both directions
    intro fs modelsDir url modelName net newId now store e hcons h
    obtain ⟨hsd, hds⟩ := hcons
    rcases downloadGGUFModel_cases fs modelsDir url modelName net newId now _ _ rfl rfl with
      ⟨_, hr⟩ | ⟨hne, _, _, ⟨e2, herr, hclean, hpres⟩ | ⟨n, hfb, hok, hfs⟩⟩
    · constructor
      · intro x hx
        simp only [hr]
        exact hsd x hx
      · intro p hp hart
        have hp2 : fsExists fs p = true := by simpa [hr] using hp
        exact hds p hp2 hart
    · constructor
      · intro x hx
        have hxe : fsExists fs x.path = true := hsd x hx
        have hxq : x.path ≠ modelsDir ++ "/" ++ sanitizeModelName modelName := by
          intro hqe
          rw [hqe, hne] at hxe
          cases hxe
        simp only [fsExists] at hxe ⊢
        rw [hpres x.path hxq]
        exact hxe
      · intro p hp hart
        by_cases hpd : p = modelsDir ++ "/" ++ sanitizeModelName modelName
        · rw [hpd, hclean] at hp
          cases hp
        · have hp2 : fsExists fs p = true := by
            simp only [fsExists] at hp ⊢
            rw [← hpres p hpd]
            exact hp
          exact hds p hp2 hart
    · rw [hok] at h; cases h
  · -- a failed delete changes neither the filesystem nor the store
    intro fs store mdl e h
    by_cases hex : fsExists fs mdl.path = true
    · have hok : (deleteGGUFModel fs mdl.path).1 = Except.ok true := by
        simp [deleteGGUFModel, hex]
      rw [hok] at h
      cases h
    · have hb : fsExists fs mdl.path = false := by simpa using hex
      simp only [handleModelDelete, delete_missing_eq fs mdl.path hb]

/-- Witness for `store_fs_consistency_amended` (the successful-delete part)
at a concrete input. -/
theorem store_fs_consistency_amended_witness :
    mutualConsistent "/d"
      (handleModelDelete [("/d/m.gguf", 5)]
        [{ id := 1, name := "m", path := "/d/m.gguf", size := 5, dateDownloaded := 0 }]
        { id := 1, name := "m", path := "/d/m.gguf", size := 5, dateDownloaded := 0 }).1
      (handleModelDelete [("/d/m.gguf", 5)]
        [{ id := 1, name := "m", path := "/d/m.gguf", size := 5, dateDownloaded := 0 }]
        { id := 1, name := "m", path := "/d/m.gguf", size := 5, dateDownloaded := 0 }).2 :=
  store_fs_consistency_amended.1 "/d" [("/d/m.gguf", 5)]
    [{ id := 1, name := "m", path := "/d/m.gguf", size := 5, dateDownloaded := 0 }]
    { id := 1, name := "m", path := "/d/m.gguf", size := 5, dateDownloaded := 0 }
    (by
      constructor
      · simp only [storeFsConsistent]
        decide
      · intro p hp hart
        have hpa : p = "/d/m.gguf" := by
          by_cases hq : ("/d/m.gguf" : String) = p
          · exact hq.symm
          · simp [fsExists, fsLookup, hq] at hp
        exact ⟨{ id := 1, name := "m", path := "/d/m.gguf", size := 5, dateDownloaded := 0 },
          by simp, by rw [hpa]⟩)
    (by decide)
    (by rfl)

end VingAI
